import Mathlib

set_option maxHeartbeats 1000000

/-!
Shallow embedding of `vce2flashquiz.py`, a VCE-PDF to Flashquiz-markup
converter.  Python strings are modelled as `List Char` (so that Python's
character-based offsets are exact), raw image bytes as `List Nat`.  The
external PDF library is out of scope: the embedding takes the per-page
extracted texts and the ordered list of image occurrences as inputs, which
is exactly the interface the script consumes.
-/

/-- ASCII fragment of Python's `\s` / `str.strip` whitespace class. -/
def pyIsSpace (c : Char) : Bool :=
  c = ' ' || c = '\t' || c = '\n' || c = '\r' || c = '\x0B' || c = '\x0C'

/-- ASCII uppercase letter, the regex class `[A-Z]`. -/
def pyIsUpper (c : Char) : Bool := 'A' ≤ c && c ≤ 'Z'

/-- ASCII digit, the regex class `\d` restricted to ASCII. -/
def pyIsDigit (c : Char) : Bool := '0' ≤ c && c ≤ '9'

/-- Python `str.lower` on the ASCII range. -/
def pyToLower (c : Char) : Char :=
  if 'A' ≤ c ∧ c ≤ 'Z' then Char.ofNat (c.toNat + 32) else c

/-- Python `str.strip()`: drop whitespace from both ends. -/
def strip (t : List Char) : List Char :=
  ((t.dropWhile pyIsSpace).reverse.dropWhile pyIsSpace).reverse

/-- Python `str.split(sep)` for a one-character separator: always returns at
least one (possibly empty) piece. -/
def splitOnChar (sep : Char) : List Char → List (List Char)
  | [] => [[]]
  | c :: rest =>
    if c = sep then [] :: splitOnChar sep rest
    else
      match splitOnChar sep rest with
      | h :: t => (c :: h) :: t
      | [] => [[c]]

/-- Python `str.split('\n')`. -/
def splitLines (t : List Char) : List (List Char) := splitOnChar '\n' t

/-- Index of the first occurrence of `pat` in `t`, if any (Python `str.find`
restricted to successful searches). -/
def findSub (pat : List Char) : List Char → Option Nat
  | [] => if pat.isPrefixOf ([] : List Char) then some 0 else none
  | c :: rest =>
    if pat.isPrefixOf (c :: rest) then some 0
    else (findSub pat rest).map (· + 1)

/-- Python's `pat in t` substring test. -/
def containsSub (pat t : List Char) : Bool := (findSub pat t).isSome

/-- Python `t.split(pat)[1]`: the segment of `t` strictly between the first
occurrence of `pat` and the following one (or the end of `t`).  Returns `[]`
when `pat` does not occur (the script only evaluates this under a
containment guard). -/
def splitGet1 (pat t : List Char) : List Char :=
  match findSub pat t with
  | none => []
  | some i =>
    let rest := t.drop (i + pat.length)
    match findSub pat rest with
    | none => rest
    | some j => rest.take j

/-- The standard base64 alphabet. -/
def base64Table : List Char :=
  "ABCDEFGHIJKLMNOPQRSTUVWXYZabcdefghijklmnopqrstuvwxyz0123456789+/".toList

/-- Character of the base64 alphabet at index `n`. -/
def b64Char (n : Nat) : Char := (base64Table.get? n).getD 'A'

/-- RFC 4648 base64 encoding of a byte list, as produced by Python's
`base64.b64encode`. -/
def base64Encode : List Nat → List Char
  | [] => []
  | [a] => [b64Char (a / 4), b64Char (a % 4 * 16), '=', '=']
  | [a, b] => [b64Char (a / 4), b64Char (a % 4 * 16 + b / 16), b64Char (b % 16 * 4), '=']
  | a :: b :: c :: rest =>
    b64Char (a / 4) :: b64Char (a % 4 * 16 + b / 16) ::
      b64Char (b % 16 * 4 + c / 64) :: b64Char (c % 64) :: base64Encode rest

/-- Extension choice of `get_image_base64_from_data`: magic-byte sniffing,
then the final dot-separated component of the resource name, defaulting to
`png`. -/
def extOfData (data : List Nat) (name : List Char) : List Char :=
  if [0xff, 0xd8].isPrefixOf data then "jpg".toList
  else if [0x89, 0x50, 0x4e, 0x47].isPrefixOf data then "png".toList
  else if [0x47, 0x49, 0x46].isPrefixOf data then "gif".toList
  else
    let e := ((splitOnChar '.' name).getLast?.getD []).map pyToLower
    if e = "png".toList ∨ e = "jpg".toList ∨ e = "jpeg".toList ∨ e = "gif".toList then e
    else "png".toList

/-- `get_image_base64_from_data(data, name)`: data URI with sniffed
extension and base64 payload.  The Python `try` block can only fail on
non-string/bytes inputs, so the embedding always returns a value; the
claims about this function are conditional on a result being returned. -/
def get_image_base64_from_data (data : List Nat) (name : List Char) : Option (List Char) :=
  some ("data:image/".toList ++ extOfData data name ++ ";base64,".toList ++ base64Encode data)

/-- The extension set the specification calls "recognized". -/
def recognizedExts : List (List Char) := ["png".toList, "jpg".toList, "jpeg".toList, "gif".toList]

/-- Extension rule as the specification words it: magic bytes FF D8 / 89 50
4E 47 / GIF, else the lowercased final dot-separated name component when
recognized, else `png`.  Stated separately from `extOfData` so the code can
be compared against the spec sentence. -/
def extSpec (data : List Nat) (name : List Char) : List Char :=
  if [0xff, 0xd8].isPrefixOf data then "jpg".toList
  else if [0x89, 0x50, 0x4e, 0x47].isPrefixOf data then "png".toList
  else if [0x47, 0x49, 0x46].isPrefixOf data then "gif".toList
  else
    let e := ((splitOnChar '.' name).getLast?.getD []).map pyToLower
    if e ∈ recognizedExts then e else "png".toList

example : extOfData [0xff, 0xd8, 0x00] ("x.bin".toList) = "jpg".toList := by decide
example : extOfData [0x00] ("x.JPEG".toList) = "jpeg".toList := by decide
example : extOfData [0x00] ("noext".toList) = "png".toList := by decide
example : base64Encode [255, 216, 0] = "/9gA".toList := by decide
example : base64Encode [77] = "TQ==".toList := by decide

/-! ## Text segmentation (`parse_vce_pdf`, lines 64–104) -/

/-- One image occurrence as produced by `extract_all_image_occurrences`:
the page it is drawn on and its encoded data URI. -/
structure ImageOcc where
  page : Nat
  b64 : List Char
deriving Repr, DecidableEq

/-- One emitted question: type tag, body text, formatted option lines,
final answer string. -/
structure Question where
  qtype : List Char
  text : List Char
  options : List (List Char)
  answer : List Char
deriving Repr, DecidableEq

/-- The concatenation loop of `parse_vce_pdf`: each page text is suffixed
with a newline; `page_offsets` records each page's starting offset in the
concatenated buffer together with its index.  Arguments `off`/`i` are the
running offset and page index, started at `0`/`0`. -/
def buildPages : List (List Char) → Nat → Nat → List Char × List (Nat × Nat)
  | [], _, _ => ([], [])
  | t :: ts, off, i =>
    let t' := t ++ ['\n']
    let r := buildPages ts (off + t'.length) (i + 1)
    (t' ++ r.1, (off, i) :: r.2)

/-- The `full_text` buffer for a list of page texts. -/
def fullTextOf (pts : List (List Char)) : List Char := (buildPages pts 0 0).1

/-- The `page_offsets` table for a list of page texts. -/
def pageOffsetsOf (pts : List (List Char)) : List (Nat × Nat) := (buildPages pts 0 0).2

/-- The literal word of the question-marker pattern. -/
def qMarker : List Char := "QUESTION".toList

/-- Length of the regex match `QUESTION\s+\d+` anchored at the head of `t`,
if it matches: the literal word, then a maximal nonempty whitespace run,
then a maximal nonempty digit run. -/
def matchQuestionAt (t : List Char) : Option Nat :=
  if qMarker.isPrefixOf t then
    let rest := t.drop qMarker.length
    let ws := rest.takeWhile pyIsSpace
    let ds := (rest.drop ws.length).takeWhile pyIsDigit
    if ws.length = 0 ∨ ds.length = 0 then none
    else some (qMarker.length + ws.length + ds.length)
  else none

/-- Worker for `re.finditer(r'QUESTION\s+\d+', ...)`: at each position try
the anchored match; on success record `(start, end)` and resume after the
match, otherwise advance one character.  `fuel` bounds the number of steps;
every step consumes at least one character, so `t.length` steps always
suffice. -/
def finditerAux : Nat → List Char → Nat → List (Nat × Nat)
  | 0, _, _ => []
  | _ + 1, [], _ => []
  | fuel + 1, c :: rest, pos =>
    match matchQuestionAt (c :: rest) with
    | some len => (pos, pos + len) :: finditerAux fuel ((c :: rest).drop len) (pos + len)
    | none => finditerAux fuel rest (pos + 1)

/-- All matches of `QUESTION\s+\d+` in `t` as `(start, end)` offset pairs,
in order, non-overlapping. -/
def finditerQ (t : List Char) (pos : Nat) : List (Nat × Nat) :=
  finditerAux t.length t pos

/-- `re.sub(r'^QUESTION\s+\d+\s*', '', t)`: remove the anchored marker match
together with any whitespace that follows it; identity when there is no
match at the start. -/
def stripQuestionMarker (t : List Char) : List Char :=
  match matchQuestionAt t with
  | some len => (t.drop len).dropWhile pyIsSpace
  | none => t

/-- The page-index scan of `parse_vce_pdf` (lines 92–96): fold over the
offset table keeping the page index of the last entry whose start offset is
`≤ pos`, defaulting to page `0`. -/
def computePage (po : List (Nat × Nat)) (pos : Nat) : Nat :=
  po.foldl (fun acc p => if p.1 ≤ pos then p.2 else acc) 0

/-- Question spans from the marker list: each span starts at a marker start
and ends at the next marker's start, the last one at `total`
(= `len(full_text)`). -/
def spansOf : List (Nat × Nat) → Nat → List (Nat × Nat)
  | [], _ => []
  | [(s, _)], total => [(s, total)]
  | (s, _) :: m2 :: rest, total => (s, m2.1) :: spansOf (m2 :: rest) total

example : finditerQ ("intro\nQUESTION 1\nbody\nQUESTION 23 x".toList) 0 = [(6, 16), (22, 33)] := by decide
example : stripQuestionMarker ("QUESTION 7  rest".toList) = "rest".toList := by decide
example : stripQuestionMarker ("QUESTION5".toList) = "QUESTION5".toList := by decide
example : spansOf [(6, 16), (22, 33)] 40 = [(6, 22), (22, 40)] := by decide


/-! ## Line classification (`parse_vce_pdf`, lines 98–124) -/

/-- The answer-line marker literal. -/
def caMark : List Char := "Correct Answer:".toList

/-- The regex test `re.match(r'^[A-Z]\.', line)`. -/
def isOptionLine : List Char → Bool
  | a :: b :: _ => pyIsUpper a && b = '.'
  | _ => false

/-- State of the line-classification loop: body lines, option entries, raw
answer string, and the `parsing_options` flag. -/
structure ParseState where
  qlines : List (List Char)
  options : List (List Char)
  ans : List Char
  parsingOptions : Bool
deriving Repr, DecidableEq

/-- Initial classification state. -/
def initState : ParseState := ⟨[], [], [], false⟩

/-- One iteration of the classification loop (lines 111–122): option lines
start a new option entry; a `Correct Answer:` line sets the raw answer
string and leaves option mode; other lines extend the body outside option
mode, and the last option (or the body, when no option exists yet) inside
it. -/
def classifyStep (st : ParseState) (line : List Char) : ParseState :=
  if isOptionLine line then
    { st with options := st.options ++ [line], parsingOptions := true }
  else if containsSub caMark line then
    { st with ans := strip (splitGet1 caMark line), parsingOptions := false }
  else if st.parsingOptions = false then
    { st with qlines := st.qlines ++ [line] }
  else if st.options ≠ [] then
    { st with options := st.options.dropLast ++ [(st.options.getLast?.getD []) ++ ' ' :: line] }
  else
    { st with qlines := st.qlines ++ [line] }

/-- The non-empty stripped lines of a question span (line 98): slice
`full_text[s:e]`, strip it, split on newlines, strip each line, drop empty
ones. -/
def spanLines (ft : List Char) (s e : Nat) : List (List Char) :=
  ((splitLines (strip ((ft.drop s).take (e - s)))).map strip).filter (· ≠ [])

/-- First-line adjustment (lines 101–104): strip the `QUESTION <n>` marker
from the first line; drop the line when nothing remains. -/
def adjustFirst : List (List Char) → List (List Char)
  | [] => []
  | first :: rest =>
    let fc := strip (stripQuestionMarker first)
    if fc ≠ [] then fc :: rest else rest

/-- Classification state after running the loop over a span's adjusted
lines. -/
def spanStateOf (ft : List Char) (s e : Nat) : ParseState :=
  (adjustFirst (spanLines ft s e)).foldl classifyStep initState

/-! ## Exhibit assignment (`parse_vce_pdf`, lines 128–151) -/

/-- Encoded data of the image occurrence at index `idx` (the index is in
range at every use site). -/
def b64At (imgs : List ImageOcc) (idx : Nat) : List Char :=
  ((imgs.get? idx).map ImageOcc.b64).getD []

/-- Indices of image occurrences whose page lies in `[lo, hi]`, in document
order (the list comprehension of lines 129–132). -/
def imagesInSpan (imgs : List ImageOcc) (lo hi : Nat) : List Nat :=
  (imgs.enum.filter (fun p => lo ≤ p.2.page && p.2.page ≤ hi)).map Prod.fst

/-- The greedy walk of lines 136–142 over the in-span indices, threading
the assigned list, the seen set (as a duplicate-free list) and the
high-water mark `last_image_idx_used`. -/
def exhibitWalk (imgs : List ImageOcc) :
    List Nat → List (List Char) → List (List Char) → Int →
    List (List Char) × List (List Char) × Int
  | [], acc, seen, last => (acc, seen, last)
  | idx :: rest, acc, seen, last =>
    if (idx : Int) > last then
      let b := b64At imgs idx
      if b ∈ seen then exhibitWalk imgs rest acc seen (idx : Int)
      else exhibitWalk imgs rest (acc ++ [b]) (seen ++ [b]) (idx : Int)
    else exhibitWalk imgs rest acc seen last

/-- Lines 128–148 without the body append: the assigned image list and the
updated high-water mark, including the last-in-span fallback of lines
144–148. -/
def exhibitAssign (imgs : List ImageOcc) (lo hi : Nat) (last : Int) :
    List (List Char) × Int :=
  let idxs := imagesInSpan imgs lo hi
  let r := exhibitWalk imgs idxs [] [] last
  if r.1 = [] ∧ idxs ≠ [] then ([b64At imgs (idxs.getLast?.getD 0)], r.2.2)
  else (r.1, r.2.2)

/-- The markdown image reference appended per assigned image (line 151). -/
def mdRef (b : List Char) : List Char := "\n\n![Exhibit](".toList ++ b ++ [')']

/-- The append loop of lines 150–151. -/
def appendImages (qt : List Char) (as : List (List Char)) : List Char :=
  as.foldl (fun t b => t ++ mdRef b) qt

/-- The whole exhibit stage: gated on the body containing `exhibit`
case-insensitively (line 128); otherwise body and high-water mark are
untouched. -/
def exhibitStep (imgs : List ImageOcc) (lo hi : Nat) (last : Int) (qt : List Char) :
    List Char × Int :=
  if containsSub ("exhibit".toList) (qt.map pyToLower) then
    let r := exhibitAssign imgs lo hi last
    (appendImages qt r.1, r.2)
  else (qt, last)

/-! ## Question classification (`parse_vce_pdf`, lines 154–188) -/

/-- The regex `^([A-Z])\.\s*(.*)` on an option entry: the letter and the
text after the dot and any following whitespace (`.*` stops at a newline,
though option entries never contain one). -/
def optMatch : List Char → Option (Char × List Char)
  | a :: b :: rest =>
    if pyIsUpper a ∧ b = '.' then
      some (a, (rest.dropWhile pyIsSpace).takeWhile (· ≠ '\n'))
    else none
  | _ => none

/-- `m.group(1).strip().lower()` in the true/false test (lines 159–163). -/
def optTextOf (o : List Char) : Option (List Char) :=
  (optMatch o).map (fun p => (strip p.2).map pyToLower)

/-- The true/false test of lines 156–165: exactly two options whose
stripped lowercased texts include both `true` and `false`. -/
def tfCheck (options : List (List Char)) : Bool :=
  if options.length = 2 then
    let optTexts := options.filterMap optTextOf
    decide ("true".toList ∈ optTexts ∧ "false".toList ∈ optTexts)
  else false

/-- Option reformatting of lines 168–173: `<lowercase letter>) <text>`. -/
def formatOption (o : List Char) : Option (List Char) :=
  (optMatch o).map (fun p => pyToLower p.1 :: ')' :: ' ' :: strip p.2)

/-- `re.findall(r'[A-Z]', s)` lowercased (line 154): the uppercase letters
of the raw answer string, in order, lowercased. -/
def answerLetters (s : List Char) : List Char :=
  (s.filter pyIsUpper).map pyToLower

/-- Lines 154–188: type tag, emitted options and final answer from the body
text, the option entries and the raw answer string. -/
def classifyQuestion (qt : List Char) (options : List (List Char)) (ansStr : List Char) :
    Question :=
  let answers := answerLetters ansStr
  let formattedOptions := options.filterMap formatOption
  if tfCheck options then
    { qtype := "@tf".toList, text := qt, options := [],
      answer := if answers.headD 'a' = 'a' then "true".toList else "false".toList }
  else
    { qtype := if answers.length = 1 then "@mc".toList else "@sata".toList,
      text := qt, options := formattedOptions,
      answer := List.intercalate (", ".toList) (answers.map (fun c => [c])) }

/-! ## Per-span processing and the top level (`parse_vce_pdf`) -/

/-- Process one question span (the body of the loop at lines 87–188):
`none` when the span has no lines, no body text or no answer string;
otherwise the emitted question.  The second component is the updated
high-water mark. -/
def processSpan (imgs : List ImageOcc) (po : List (Nat × Nat)) (ft : List Char)
    (s e : Nat) (last : Int) : Option Question × Int :=
  if spanLines ft s e = [] then (none, last)
  else if (spanStateOf ft s e).qlines = [] ∨ (spanStateOf ft s e).ans = [] then (none, last)
  else
    (some (classifyQuestion
        (exhibitStep imgs (computePage po s) (computePage po e) last
          (List.intercalate [' '] (spanStateOf ft s e).qlines)).1
        (spanStateOf ft s e).options (spanStateOf ft s e).ans),
     (exhibitStep imgs (computePage po s) (computePage po e) last
        (List.intercalate [' '] (spanStateOf ft s e).qlines)).2)

/-- The span loop, threading the high-water mark across questions. -/
def parseLoop (imgs : List ImageOcc) (po : List (Nat × Nat)) (ft : List Char) :
    List (Nat × Nat) → Int → List Question
  | [], _ => []
  | (s, e) :: rest, last =>
    match processSpan imgs po ft s e last with
    | (some q, last') => q :: parseLoop imgs po ft rest last'
    | (none, last') => parseLoop imgs po ft rest last'

/-- Title selection of lines 76–83: the stripped first line of the stripped
text before the first marker, else the fixed default. -/
def quizTitleOf (ft : List Char) (markers : List (Nat × Nat)) : List Char :=
  match markers with
  | [] => "VCE Quiz".toList
  | (s, _) :: _ =>
    let header := strip (ft.take s)
    if header ≠ [] then
      match splitLines header with
      | l :: _ => strip l
      | [] => "VCE Quiz".toList
    else "VCE Quiz".toList

/-- `parse_vce_pdf`: from the per-page extracted texts and the ordered
image occurrences to the quiz title and question list. -/
def parse_vce_pdf (pts : List (List Char)) (imgs : List ImageOcc) :
    List Char × List Question :=
  let ft := fullTextOf pts
  let markers := finditerQ ft 0
  (quizTitleOf ft markers,
   parseLoop imgs (pageOffsetsOf pts) ft (spansOf markers ft.length) (-1))

/-! ## Markup formatter (`format_flashquiz`, lines 192–213) -/

/-- The per-question blocks of the output: type tag with 1-based ordinal
and body, option lines, answer line, blank separator. -/
def formatQs : List Question → Nat → List (List Char)
  | [], _ => []
  | q :: rest, i =>
    ((q.qtype ++ ' ' :: ((Nat.repr i).toList ++ ')' :: ' ' :: q.text)) ::
      (q.options ++ ("= ".toList ++ q.answer) :: [] :: formatQs rest (i + 1)))

/-- `format_flashquiz(title, questions)`: front-matter block then question
blocks, joined with newlines. -/
def format_flashquiz (title : List Char) (qs : List Question) : List Char :=
  List.intercalate ['\n']
    (["---".toList,
      "quiz-title: \"".toList ++ title ++ ['"'],
      "time-limit: 0".toList,
      "pass-score: 80".toList,
      "shuffle: true".toList,
      "show-answer: true".toList,
      "exam-range: \"-\"".toList,
      "---".toList,
      []] ++ formatQs qs 1)

/-! ## Helper lemmas -/

lemma extOfData_eq_extSpec (d : List Nat) (n : List Char) : extOfData d n = extSpec d n := by
  simp only [extOfData, extSpec, recognizedExts, List.mem_cons, List.not_mem_nil, or_false]

lemma splitOnChar_ne_nil (sep : Char) (t : List Char) : splitOnChar sep t ≠ [] := by
  cases t with
  | nil => simp [splitOnChar]
  | cons c rest =>
    unfold splitOnChar
    split_ifs
    · simp
    · cases h : splitOnChar sep rest <;> simp

/-! ## Claim C7 -/

/-- C7: whenever `get_image_base64_from_data` returns a result, it is the
literal `data:image/` prefix, the extension determined by the sniff /
name-extension / png-default rule, the `;base64,` separator, and the base64
encoding of the bytes. -/
theorem c7_image_data_uri (data : List Nat) (name : List Char) (r : List Char)
    (h : get_image_base64_from_data data name = some r) :
    r = "data:image/".toList ++ extSpec data name ++ ";base64,".toList ++ base64Encode data := by
  unfold get_image_base64_from_data at h
  injection h with h
  rw [← h, extOfData_eq_extSpec]

/-- Witness for C7 on a JPEG-magic byte string with a non-image name
extension. -/
theorem c7_image_data_uri_witness :
    "data:image/jpg;base64,/9gA".toList =
      "data:image/".toList ++ extSpec [255, 216, 0] ("x.bin".toList) ++ ";base64,".toList ++
        base64Encode [255, 216, 0] :=
  c7_image_data_uri [255, 216, 0] ("x.bin".toList) ("data:image/jpg;base64,/9gA".toList)
    (by decide)

/-! ## Claim C9 -/

/-- C9: the formatter is a pure function of its two arguments — equal
inputs give character-for-character equal output.  (The Python function
reads and writes only its parameters and a local accumulator, which is what
lets it be embedded as this pure function.) -/
theorem c9_formatter_deterministic (t1 t2 : List Char) (q1 q2 : List Question)
    (ht : t1 = t2) (hq : q1 = q2) :
    format_flashquiz t1 q1 = format_flashquiz t2 q2 := by
  rw [ht, hq]

/-- Witness for C9 at a concrete title and question list. -/
theorem c9_formatter_deterministic_witness :
    format_flashquiz ("T".toList)
        [{ qtype := "@mc".toList, text := "Q".toList, options := ["a) x".toList],
           answer := "a".toList }] =
      format_flashquiz ("T".toList)
        [{ qtype := "@mc".toList, text := "Q".toList, options := ["a) x".toList],
           answer := "a".toList }] :=
  c9_formatter_deterministic _ _ _ _ rfl rfl

/-! ## Claim C3 -/

/-- C3: a question with exactly two option lines whose stripped lowercased
texts are `true` and `false` in either order is emitted with the `@tf` tag
and no option lines, and its final answer is `true` exactly when the first
extracted answer letter is `a`. -/
theorem c3_true_false_classification (qt o1 o2 ansStr : List Char)
    (hperm : (optTextOf o1 = some ("true".toList) ∧ optTextOf o2 = some ("false".toList)) ∨
             (optTextOf o1 = some ("false".toList) ∧ optTextOf o2 = some ("true".toList))) :
    (classifyQuestion qt [o1, o2] ansStr).qtype = "@tf".toList ∧
    (classifyQuestion qt [o1, o2] ansStr).options = [] ∧
    ∀ c rest, answerLetters ansStr = c :: rest →
      (classifyQuestion qt [o1, o2] ansStr).answer =
        (if c = 'a' then "true".toList else "false".toList) := by
  have htf : tfCheck [o1, o2] = true := by
    rcases hperm with ⟨ha, hb⟩ | ⟨ha, hb⟩ <;>
      simp [tfCheck, List.filterMap, ha, hb]
  refine ⟨by simp [classifyQuestion, htf], by simp [classifyQuestion, htf], ?_⟩
  intro c rest hlt
  simp [classifyQuestion, htf, hlt]

/-- Witness for C3 on the options `A. True` / `B. False` with raw answer
letter `B`. -/
theorem c3_true_false_classification_witness :
    (classifyQuestion ("Q".toList) ["A. True".toList, "B. False".toList] ("B".toList)).qtype =
        "@tf".toList ∧
    (classifyQuestion ("Q".toList) ["A. True".toList, "B. False".toList] ("B".toList)).options =
        [] ∧
    (classifyQuestion ("Q".toList) ["A. True".toList, "B. False".toList] ("B".toList)).answer =
        "false".toList := by
  have h := c3_true_false_classification ("Q".toList) ("A. True".toList) ("B. False".toList)
    ("B".toList) (Or.inl ⟨by decide, by decide⟩)
  refine ⟨h.1, h.2.1, ?_⟩
  have h2 := h.2.2 'b' [] (by decide)
  simpa using h2

/-! ## Claim C4 -/

/-- C4: for non-true/false questions the correct-answer letters are exactly
the uppercase letters of the raw answer string lowercased, the type is
`@mc` for exactly one letter and `@sata` otherwise, options are reformatted
via `<lowercase letter>) <text>`, and the final answer is the comma-space
join of the letters; in particular an answer line `Correct Answer: B, D`
yields the raw string `B, D`, letters `b, d`, type `@sata` and answer
`b, d`. -/
theorem c4_answer_letters_and_types :
    (∀ (qt : List Char) (opts : List (List Char)) (ansStr : List Char),
        tfCheck opts = false →
        (classifyQuestion qt opts ansStr).answer =
            List.intercalate (", ".toList) ((answerLetters ansStr).map (fun c => [c])) ∧
        (classifyQuestion qt opts ansStr).qtype =
            (if (answerLetters ansStr).length = 1 then "@mc".toList else "@sata".toList) ∧
        (classifyQuestion qt opts ansStr).options = opts.filterMap formatOption) ∧
    ((classifyStep initState ("Correct Answer: B, D".toList)).ans = "B, D".toList ∧
     answerLetters ("B, D".toList) = ['b', 'd'] ∧
     (classifyQuestion ("Q".toList) [] ("B, D".toList)).qtype = "@sata".toList ∧
     (classifyQuestion ("Q".toList) [] ("B, D".toList)).answer = "b, d".toList) := by
  constructor
  · intro qt opts ansStr htf
    refine ⟨?_, ?_, ?_⟩ <;> simp [classifyQuestion, htf]
  · refine ⟨by decide, by decide, by decide, by decide⟩

/-- Witness for C4 on an option list that is not true/false and the raw
answer string `B`. -/
theorem c4_answer_letters_and_types_witness :
    (classifyQuestion ("Q".toList) ["A. Foo".toList] ("B".toList)).answer =
        List.intercalate (", ".toList) ((answerLetters ("B".toList)).map (fun c => [c])) ∧
    (classifyQuestion ("Q".toList) ["A. Foo".toList] ("B".toList)).qtype =
        (if (answerLetters ("B".toList)).length = 1 then "@mc".toList else "@sata".toList) ∧
    (classifyQuestion ("Q".toList) ["A. Foo".toList] ("B".toList)).options =
        ["A. Foo".toList].filterMap formatOption :=
  c4_answer_letters_and_types.1 ("Q".toList) ["A. Foo".toList] ("B".toList) (by decide)

/-! ## Claim C10 -/

/-- C10: a span whose raw answer string is non-empty but has no uppercase
letters is kept; a true/false question then answers `true`, any other
question is `@sata` with an empty final answer. -/
theorem c10_letterless_answer_kept :
    (∀ (qt : List Char) (opts : List (List Char)) (ansStr : List Char),
        ansStr ≠ [] → ansStr.filter pyIsUpper = [] →
        (tfCheck opts = true → (classifyQuestion qt opts ansStr).answer = "true".toList) ∧
        (tfCheck opts = false →
          (classifyQuestion qt opts ansStr).qtype = "@sata".toList ∧
          (classifyQuestion qt opts ansStr).answer = [])) ∧
    (∀ (imgs : List ImageOcc) (po : List (Nat × Nat)) (ft : List Char) (s e : Nat) (last : Int),
        spanLines ft s e ≠ [] →
        (spanStateOf ft s e).qlines ≠ [] →
        (spanStateOf ft s e).ans ≠ [] →
        ∃ q last', processSpan imgs po ft s e last = (some q, last')) := by
  constructor
  · intro qt opts ansStr _ hfu
    have hal : answerLetters ansStr = [] := by
      unfold answerLetters
      rw [hfu]
      rfl
    constructor
    · intro htf
      simp [classifyQuestion, htf, hal]
    · intro htf
      constructor <;> simp [classifyQuestion, htf, hal, List.intercalate]
  · intro imgs po ft s e last h1 h2 h3
    unfold processSpan
    rw [if_neg h1, if_neg (by simp [h2, h3])]
    exact ⟨_, _, rfl⟩

/-- Witness for C10: a letterless raw answer classifies as `@sata` with
empty answer, and a concrete span with answer line `Correct Answer: true`
is kept. -/
theorem c10_letterless_answer_kept_witness :
    ((classifyQuestion ("Q".toList) [] ("true".toList)).qtype = "@sata".toList ∧
     (classifyQuestion ("Q".toList) [] ("true".toList)).answer = []) ∧
    (processSpan [] [] ("QUESTION 1\nWhat?\nCorrect Answer: true".toList) 0 100 (-1)).1 ≠
      none := by
  constructor
  · exact (c10_letterless_answer_kept.1 ("Q".toList) [] ("true".toList) (by decide)
      (by decide)).2 (by decide)
  · obtain ⟨q, l, heq⟩ := c10_letterless_answer_kept.2 [] []
      ("QUESTION 1\nWhat?\nCorrect Answer: true".toList) 0 100 (-1)
      (by decide) (by decide) (by decide)
    rw [heq]
    simp

/-! ## Claim C5 -/

/-- C5: a span whose classified lines leave no body text or an empty raw
answer string contributes no question, and the span loop continues on the
remaining spans with the high-water mark unchanged. -/
theorem c5_malformed_span_dropped (imgs : List ImageOcc) (po : List (Nat × Nat))
    (ft : List Char) (s e : Nat) (last : Int)
    (hml : (spanStateOf ft s e).qlines = [] ∨ (spanStateOf ft s e).ans = []) :
    processSpan imgs po ft s e last = (none, last) ∧
    ∀ rest, parseLoop imgs po ft ((s, e) :: rest) last = parseLoop imgs po ft rest last := by
  have hp : processSpan imgs po ft s e last = (none, last) := by
    unfold processSpan
    by_cases h0 : spanLines ft s e = []
    · rw [if_pos h0]
    · rw [if_neg h0, if_pos hml]
  exact ⟨hp, fun rest => by simp only [parseLoop, hp]⟩

/-- Witness for C5 on a span with body text but no answer line. -/
theorem c5_malformed_span_dropped_witness :
    processSpan [] [] ("QUESTION 1\nbody only".toList) 0 50 (-1) = (none, -1) ∧
    parseLoop [] [] ("QUESTION 1\nbody only".toList) [(0, 50)] (-1) =
      parseLoop [] [] ("QUESTION 1\nbody only".toList) [] (-1) := by
  have h := c5_malformed_span_dropped [] [] ("QUESTION 1\nbody only".toList) 0 50 (-1)
    (Or.inr (by decide))
  exact ⟨h.1, h.2 []⟩

/-! ## Claim C6 -/

/-- C6: with no `QUESTION <n>` markers the question list is empty and the
title is the fixed default; with markers present the title is the stripped
first line of the stripped text before the first marker when that text is
non-empty, else the default. -/
theorem c6_markers_and_title (pts : List (List Char)) (imgs : List ImageOcc) :
    (finditerQ (fullTextOf pts) 0 = [] →
      parse_vce_pdf pts imgs = ("VCE Quiz".toList, [])) ∧
    (∀ s e rest, finditerQ (fullTextOf pts) 0 = (s, e) :: rest →
      (parse_vce_pdf pts imgs).1 =
        (if strip ((fullTextOf pts).take s) = [] then "VCE Quiz".toList
         else strip ((splitLines (strip ((fullTextOf pts).take s))).headD []))) := by
  constructor
  · intro hm
    simp only [parse_vce_pdf, hm]
    simp [quizTitleOf, spansOf, parseLoop]
  · intro s e rest hm
    simp only [parse_vce_pdf, hm]
    unfold quizTitleOf
    by_cases hh : strip ((fullTextOf pts).take s) = []
    · rw [if_pos hh]
      simp [hh]
    · rw [if_neg hh]
      obtain ⟨l, tl, hsl⟩ : ∃ l tl,
          splitLines (strip ((fullTextOf pts).take s)) = l :: tl := by
        cases h : splitLines (strip ((fullTextOf pts).take s)) with
        | nil => exact absurd h (splitOnChar_ne_nil _ _)
        | cons a b => exact ⟨a, b, rfl⟩
      simp [hsl, hh]

/-- Witness for C6: a marker-free document parses to the default title and
no questions; a document with a header line titles the quiz with it. -/
theorem c6_markers_and_title_witness :
    parse_vce_pdf [("hello world".toList)] [] = ("VCE Quiz".toList, []) ∧
    (parse_vce_pdf [("Ttl\nQUESTION 1 x".toList)] []).1 =
      (if strip ((fullTextOf [("Ttl\nQUESTION 1 x".toList)]).take 4) = [] then "VCE Quiz".toList
       else strip
         ((splitLines (strip ((fullTextOf [("Ttl\nQUESTION 1 x".toList)]).take 4))).headD [])) :=
  ⟨(c6_markers_and_title [("hello world".toList)] []).1 (by decide),
   (c6_markers_and_title [("Ttl\nQUESTION 1 x".toList)] []).2 4 14 [] (by decide)⟩

/-! ## Exhibit-assignment instrumentation and specification -/

/-- Indices at which the walk advances the high-water mark ("consumed"
indices), recorded for the invariance claims. -/
def consumedIdxs : List Nat → Int → List Nat
  | [], _ => []
  | i :: rest, last =>
    if (i : Int) > last then i :: consumedIdxs rest (i : Int) else consumedIdxs rest last

/-- The high-water mark after the walk, computed alone. -/
def lastOnly : List Nat → Int → Int
  | [], last => last
  | i :: rest, last =>
    if (i : Int) > last then lastOnly rest (i : Int) else lastOnly rest last

/-- Assignment result worded after the specification: walk the in-span
indices greedily, and — when the walk assigned nothing but the in-span list
is non-empty — assign exactly the last in-span occurrence while leaving the
high-water mark (and seen set) unchanged. -/
def assignSpecTop (imgs : List ImageOcc) (lo hi : Nat) (last : Int) :
    List (List Char) × Int :=
  let idxs := imagesInSpan imgs lo hi
  let r := exhibitWalk imgs idxs [] [] last
  if r.1 = [] ∧ idxs ≠ [] then ([b64At imgs (idxs.getLast?.getD 0)], last)
  else (r.1, r.2.2)

lemma exhibitWalk_last (imgs : List ImageOcc) (idxs : List Nat)
    (acc seen : List (List Char)) (last : Int) :
    (exhibitWalk imgs idxs acc seen last).2.2 = lastOnly idxs last := by
  induction idxs generalizing acc seen last with
  | nil => rfl
  | cons i rest ih =>
    simp only [exhibitWalk, lastOnly]
    split_ifs with h hb
    · exact ih _ _ _
    · exact ih _ _ _
    · exact ih _ _ _

lemma lastOnly_ge (idxs : List Nat) (last : Int) : last ≤ lastOnly idxs last := by
  induction idxs generalizing last with
  | nil => simp [lastOnly]
  | cons i rest ih =>
    simp only [lastOnly]
    split_ifs with h
    · exact le_trans (le_of_lt h) (ih _)
    · exact ih _

lemma consumedIdxs_gt (idxs : List Nat) (last : Int) :
    ∀ i ∈ consumedIdxs idxs last, last < (i : Int) := by
  induction idxs generalizing last with
  | nil => simp [consumedIdxs]
  | cons j rest ih =>
    simp only [consumedIdxs]
    split_ifs with h
    · intro i hi
      rcases List.mem_cons.1 hi with rfl | hi
      · exact h
      · exact lt_trans h (ih _ i hi)
    · exact ih _

lemma consumedIdxs_le_lastOnly (idxs : List Nat) (last : Int) :
    ∀ i ∈ consumedIdxs idxs last, (i : Int) ≤ lastOnly idxs last := by
  induction idxs generalizing last with
  | nil => simp [consumedIdxs]
  | cons j rest ih =>
    simp only [consumedIdxs, lastOnly]
    split_ifs with h
    · intro i hi
      rcases List.mem_cons.1 hi with rfl | hi
      · exact lastOnly_ge rest _
      · exact ih _ i hi
    · exact ih _

lemma consumedIdxs_pairwise (idxs : List Nat) (last : Int) :
    List.Pairwise (· < ·) (consumedIdxs idxs last) := by
  induction idxs generalizing last with
  | nil => simp [consumedIdxs]
  | cons j rest ih =>
    simp only [consumedIdxs]
    split_ifs with h
    · refine List.Pairwise.cons ?_ (ih _)
      intro i hi
      have hj := consumedIdxs_gt rest (j : Int) i hi
      exact_mod_cast hj
    · exact ih _

lemma exhibitWalk_acc (imgs : List ImageOcc) (idxs : List Nat)
    (acc seen : List (List Char)) (last : Int) :
    (exhibitWalk imgs idxs acc seen last).1 = acc ++ (exhibitWalk imgs idxs [] seen last).1 := by
  induction idxs generalizing acc seen last with
  | nil => simp [exhibitWalk]
  | cons i rest ih =>
    simp only [exhibitWalk]
    split_ifs with h hb
    · exact ih _ _ _
    · simp only [List.nil_append]
      rw [ih (acc ++ [b64At imgs i]), ih [b64At imgs i], List.append_assoc]
    · exact ih _ _ _

lemma exhibitWalk_stay_of_nil (imgs : List ImageOcc) (idxs : List Nat) (last : Int) :
    (exhibitWalk imgs idxs [] [] last).1 = [] →
    (exhibitWalk imgs idxs [] [] last).2.2 = last := by
  induction idxs generalizing last with
  | nil => intro; rfl
  | cons i rest ih =>
    simp only [exhibitWalk]
    split_ifs with h hb
    · exact absurd hb (List.not_mem_nil _)
    · intro hempty
      rw [List.nil_append, exhibitWalk_acc] at hempty
      simp at hempty
    · exact ih _

lemma exhibitAssign_eq_spec (imgs : List ImageOcc) (lo hi : Nat) (last : Int) :
    exhibitAssign imgs lo hi last = assignSpecTop imgs lo hi last := by
  simp only [exhibitAssign, assignSpecTop]
  split_ifs with hc
  · rw [exhibitWalk_stay_of_nil imgs _ last hc.1]
  · rfl

lemma appendImages_eq (qt : List Char) (as : List (List Char)) :
    appendImages qt as = qt ++ (as.map mdRef).flatten := by
  induction as generalizing qt with
  | nil => simp [appendImages]
  | cons b rest ih =>
    have hstep : appendImages qt (b :: rest) = appendImages (qt ++ mdRef b) rest := rfl
    rw [hstep, ih]
    simp [List.append_assoc]

/-! ## Claim C1 -/

/-- C1: for a question body containing `exhibit` case-insensitively, the
exhibit stage produces exactly the walk-and-fallback assignment the
specification describes (indices above the high-water mark assign unless
the data was already assigned this pass and always advance the mark; when
nothing was assigned and the in-span list is non-empty, exactly the last
in-span occurrence is assigned without changing the mark), and appends each
assigned image to the body as a markdown reference, in assignment order. -/
theorem c1_exhibit_assignment (imgs : List ImageOcc) (lo hi : Nat) (last : Int)
    (qt : List Char)
    (hx : containsSub ("exhibit".toList) (qt.map pyToLower) = true) :
    exhibitStep imgs lo hi last qt =
      (qt ++ ((assignSpecTop imgs lo hi last).1.map mdRef).flatten,
       (assignSpecTop imgs lo hi last).2) := by
  simp only [exhibitStep, hx, if_true]
  rw [exhibitAssign_eq_spec, appendImages_eq]

/-- Witness for C1: one in-span image and a fresh high-water mark. -/
theorem c1_exhibit_assignment_witness :
    exhibitStep [⟨0, "IMG0".toList⟩] 0 0 (-1) ("See exhibit".toList) =
      (("See exhibit".toList) ++
        ((assignSpecTop [⟨0, "IMG0".toList⟩] 0 0 (-1)).1.map mdRef).flatten,
       (assignSpecTop [⟨0, "IMG0".toList⟩] 0 0 (-1)).2) :=
  c1_exhibit_assignment [⟨0, "IMG0".toList⟩] 0 0 (-1) ("See exhibit".toList) (by decide)

lemma exhibitWalk_mem_assigned (imgs : List ImageOcc) (idxs : List Nat)
    (seen : List (List Char)) (last : Int) :
    ∀ b ∈ (exhibitWalk imgs idxs [] seen last).1,
      ∃ i ∈ consumedIdxs idxs last, b = b64At imgs i := by
  induction idxs generalizing seen last with
  | nil => simp [exhibitWalk]
  | cons j rest ih =>
    simp only [exhibitWalk, consumedIdxs]
    split_ifs with h hb
    · intro b hbmem
      obtain ⟨i, hi, hbi⟩ := ih seen (j : Int) b hbmem
      exact ⟨i, List.mem_cons_of_mem _ hi, hbi⟩
    · intro b hbmem
      rw [List.nil_append, exhibitWalk_acc] at hbmem
      rcases List.mem_append.1 hbmem with hb1 | hb2
      · have hbj : b = b64At imgs j := by simpa using hb1
        exact ⟨j, List.mem_cons_self _ _, hbj⟩
      · obtain ⟨i, hi, hbi⟩ := ih (seen ++ [b64At imgs j]) (j : Int) b hb2
        exact ⟨i, List.mem_cons_of_mem _ hi, hbi⟩
    · exact ih seen last

/-! ## Claim C2 -/

/-- C2: the high-water mark is nondecreasing across questions; consumed
indices are strictly increasing within a question's walk, all lie strictly
above the incoming mark and at or below the outgoing one, every walk
assignment comes from a consumed index, no index consumed by one question
can be consumed again after its walk, and the fallback (an empty walk
assignment) leaves the mark unchanged. -/
theorem c2_exhibit_invariants :
    (∀ (imgs : List ImageOcc) (lo hi : Nat) (last : Int) (qt : List Char),
        last ≤ (exhibitStep imgs lo hi last qt).2) ∧
    (∀ (imgs : List ImageOcc) (idxs : List Nat) (acc seen : List (List Char)) (last : Int),
        (exhibitWalk imgs idxs acc seen last).2.2 = lastOnly idxs last) ∧
    (∀ (idxs : List Nat) (last : Int), List.Pairwise (· < ·) (consumedIdxs idxs last)) ∧
    (∀ (idxs : List Nat) (last : Int) (i : Nat), i ∈ consumedIdxs idxs last →
        last < (i : Int) ∧ (i : Int) ≤ lastOnly idxs last) ∧
    (∀ (imgs : List ImageOcc) (idxs : List Nat) (last : Int) (b : List Char),
        b ∈ (exhibitWalk imgs idxs [] [] last).1 →
        ∃ i ∈ consumedIdxs idxs last, b = b64At imgs i) ∧
    (∀ (idxs1 idxs2 : List Nat) (last : Int) (i : Nat),
        i ∈ consumedIdxs idxs1 last → i ∉ consumedIdxs idxs2 (lastOnly idxs1 last)) ∧
    (∀ (imgs : List ImageOcc) (lo hi : Nat) (last : Int),
        (exhibitWalk imgs (imagesInSpan imgs lo hi) [] [] last).1 = [] →
        (exhibitAssign imgs lo hi last).2 = last) := by
  refine ⟨?_, ?_, ?_, ?_, ?_, ?_, ?_⟩
  · intro imgs lo hi last qt
    simp only [exhibitStep]
    split_ifs with h
    · have h2 : (exhibitAssign imgs lo hi last).2 =
          lastOnly (imagesInSpan imgs lo hi) last := by
        simp only [exhibitAssign]
        split_ifs <;> exact exhibitWalk_last _ _ _ _ _
      simp only [h2]
      exact lastOnly_ge _ _
    · exact le_refl last
  · intro imgs idxs acc seen last
    exact exhibitWalk_last _ _ _ _ _
  · intro idxs last
    exact consumedIdxs_pairwise _ _
  · intro idxs last i hi
    exact ⟨consumedIdxs_gt _ _ i hi, consumedIdxs_le_lastOnly _ _ i hi⟩
  · intro imgs idxs last b hb
    exact exhibitWalk_mem_assigned imgs idxs [] last b hb
  · intro idxs1 idxs2 last i h1 h2
    have ha := consumedIdxs_le_lastOnly idxs1 last i h1
    have hb := consumedIdxs_gt idxs2 (lastOnly idxs1 last) i h2
    exact absurd hb (not_lt.2 ha)
  · intro imgs lo hi last hempty
    simp only [exhibitAssign]
    split_ifs <;> exact exhibitWalk_stay_of_nil imgs _ last hempty

/-- Witness for C2 at concrete walks: every conjunct instantiated, with its
hypotheses discharged by evaluation. -/
theorem c2_exhibit_invariants_witness :
    ((-1 : Int) ≤ (exhibitStep [⟨0, "I".toList⟩] 0 0 (-1) ("exhibit".toList)).2) ∧
    ((exhibitWalk [⟨0, "I".toList⟩] [0] [] [] (-1)).2.2 = lastOnly [0] (-1)) ∧
    List.Pairwise (· < ·) (consumedIdxs [0, 1] (-1)) ∧
    ((-1 : Int) < ((0 : Nat) : Int) ∧ ((0 : Nat) : Int) ≤ lastOnly [0, 1] (-1)) ∧
    (consumedIdxs [0] (-1) ≠ []) ∧
    (0 ∉ consumedIdxs [0] (lastOnly [0] (-1))) ∧
    ((exhibitAssign [⟨5, "I".toList⟩] 0 0 (-1)).2 = -1) := by
  obtain ⟨h1, h2, h3, h4, h5, h6, h7⟩ := c2_exhibit_invariants
  refine ⟨h1 [⟨0, "I".toList⟩] 0 0 (-1) ("exhibit".toList),
          h2 [⟨0, "I".toList⟩] [0] [] [] (-1),
          h3 [0, 1] (-1),
          h4 [0, 1] (-1) 0 (by decide),
          ?_,
          h6 [0] [0] (-1) 0 (by decide),
          h7 [⟨5, "I".toList⟩] 0 0 (-1) (by decide)⟩
  obtain ⟨i, hi, _⟩ := h5 [⟨0, "I".toList⟩] [0] (-1) ("I".toList) (by decide)
  exact List.ne_nil_of_mem hi

/-! ## Claim C8 -/

lemma buildPages_snd_cons (t : List Char) (ts : List (List Char)) (off i : Nat) :
    (buildPages (t :: ts) off i).2 =
      (off, i) :: (buildPages ts (off + (t.length + 1)) (i + 1)).2 := by
  simp [buildPages]

lemma buildPages_mem (ts : List (List Char)) (off i : Nat) :
    ∀ o j, (o, j) ∈ (buildPages ts off i).2 → off ≤ o ∧ i ≤ j := by
  induction ts generalizing off i with
  | nil => simp [buildPages]
  | cons t ts ih =>
    intro o j hoj
    rw [buildPages_snd_cons] at hoj
    rcases List.mem_cons.1 hoj with heq | hmem
    · simp at heq
      omega
    · have := ih (off + (t.length + 1)) (i + 1) o j hmem
      omega

lemma foldl_page_of_none (po : List (Nat × Nat)) (d pos : Nat)
    (h : ∀ p ∈ po, ¬ p.1 ≤ pos) :
    po.foldl (fun acc p => if p.1 ≤ pos then p.2 else acc) d = d := by
  induction po generalizing d with
  | nil => rfl
  | cons p rest ih =>
    simp only [List.foldl_cons]
    rw [if_neg (h p (List.mem_cons_self _ _))]
    exact ih d (fun q hq => h q (List.mem_cons_of_mem _ hq))

lemma computePage_max (ts : List (List Char)) (off i d pos : Nat)
    (hoff : off ≤ pos) (hne : ts ≠ []) :
    (∃ o, (o, (buildPages ts off i).2.foldl
        (fun acc p => if p.1 ≤ pos then p.2 else acc) d) ∈ (buildPages ts off i).2 ∧
      o ≤ pos) ∧
    (∀ o j, (o, j) ∈ (buildPages ts off i).2 → o ≤ pos →
      j ≤ (buildPages ts off i).2.foldl (fun acc p => if p.1 ≤ pos then p.2 else acc) d) := by
  induction ts generalizing off i d with
  | nil => exact absurd rfl hne
  | cons t ts ih =>
    rw [buildPages_snd_cons]
    simp only [List.foldl_cons]
    rw [if_pos hoff]
    by_cases hts : ts = []
    · subst hts
      simp only [buildPages, List.foldl_nil]
      constructor
      · exact ⟨off, by simp, hoff⟩
      · intro o j hm _
        simp at hm
        omega
    · by_cases hpos : off + (t.length + 1) ≤ pos
      · obtain ⟨⟨o, ho, holt⟩, hmax⟩ := ih (off + (t.length + 1)) (i + 1) i hpos hts
        constructor
        · exact ⟨o, List.mem_cons_of_mem _ ho, holt⟩
        · intro o' j hm hle
          rcases List.mem_cons.1 hm with heq | hmem
          · have hge := (buildPages_mem ts (off + (t.length + 1)) (i + 1) o
              ((buildPages ts (off + (t.length + 1)) (i + 1)).2.foldl
                (fun acc p => if p.1 ≤ pos then p.2 else acc) i) ho).2
            simp at heq
            omega
          · exact hmax o' j hmem hle
      · have hzero : (buildPages ts (off + (t.length + 1)) (i + 1)).2.foldl
            (fun acc p => if p.1 ≤ pos then p.2 else acc) i = i := by
          apply foldl_page_of_none
          intro p hp
          have := buildPages_mem ts (off + (t.length + 1)) (i + 1) p.1 p.2 (by simpa using hp)
          omega
        rw [hzero]
        constructor
        · exact ⟨off, List.mem_cons_self _ _, hoff⟩
        · intro o j hm _
          rcases List.mem_cons.1 hm with heq | hmem
          · simp at heq
            omega
          · have := buildPages_mem ts (off + (t.length + 1)) (i + 1) o j hmem
            omega

/-- C8: the computed page index for any buffer offset is the largest page
index whose recorded start offset is at most that offset, and `0` when the
offset table is empty (no pages). -/
theorem c8_page_span_lookup (pts : List (List Char)) (pos : Nat) :
    (pts = [] → computePage (pageOffsetsOf pts) pos = 0) ∧
    (pts ≠ [] →
      (∃ o, (o, computePage (pageOffsetsOf pts) pos) ∈ pageOffsetsOf pts ∧ o ≤ pos) ∧
      (∀ o j, (o, j) ∈ pageOffsetsOf pts → o ≤ pos →
        j ≤ computePage (pageOffsetsOf pts) pos)) := by
  constructor
  · intro h
    subst h
    rfl
  · intro hne
    have h := computePage_max pts 0 0 0 pos (Nat.zero_le _) hne
    simpa [computePage, pageOffsetsOf] using h

/-- Witness for C8: the empty document computes page 0, and in a two-page
document the offset of the second page resolves to page index 1. -/
theorem c8_page_span_lookup_witness :
    computePage (pageOffsetsOf []) 0 = 0 ∧
    1 ≤ computePage (pageOffsetsOf ["ab".toList, "c".toList]) 3 := by
  constructor
  · exact (c8_page_span_lookup [] 0).1 rfl
  · exact ((c8_page_span_lookup ["ab".toList, "c".toList] 3).2 (by simp)).2 3 1
      (by decide) (by decide)
